import Mathlib

/-!
Verification of the BrainPy delay-buffer and network-scheduler core.

The definitions below are shallow embeddings of the Python source:

* `brainpy/math/delayvars.py` — `TimeDelay` and `LengthDelay` ring buffers;
* `brainpy/core_system/network.py` — `Network._add_obj`, `Network._format_inputs`,
  `Network.build` / `Network.run`;
* `brainpy/integrators/runner.py` — `IntegratorRunner._post`;
* `npbrain/core/neuron_group.py` — `NeuGroup.__call__` override loops.

Samples are modelled as rationals (one scalar per sample); machine floats
become exact rationals, and Python exceptions become `Except String` /
explicit error results.
-/

namespace BrainPy

/-! ### Ring-buffer core shared by `TimeDelay.update` and `LengthDelay.update`

Both update methods execute `self.data[self.idx[0]] = value` followed by
`self.idx.value = (self.idx + 1) % self.num_delay_step`. -/

/-- One ring-buffer write: store `v` at the write index, then advance the
write index by one modulo the capacity. -/
def ringUpdate (cap : ℕ) (st : List ℚ × ℕ) (v : ℚ) : List ℚ × ℕ :=
  (st.1.set st.2 v, (st.2 + 1) % cap)

/-- Apply a sequence of ring-buffer writes. -/
def ringRun (cap : ℕ) (st : List ℚ × ℕ) (vs : List ℚ) : List ℚ × ℕ :=
  vs.foldl (ringUpdate cap) st

/-- The initial ring state built by the constructors: `data[:-1]` holds the
pre-history fill, `data[-1] = delay_target`, and the write index starts at 0. -/
def ringInit (prefill : List ℚ) (target : ℚ) : List ℚ × ℕ :=
  (prefill ++ [target], 0)

/-- Slot that holds sample number `k`, where sample 0 is the constructor's
`delay_target` (stored at slot `cap - 1`) and sample `k ≥ 1` is the value
written by the `k`-th update (stored at slot `(k-1) % cap`). -/
def slotOf (cap k : ℕ) : ℕ :=
  if k = 0 then cap - 1 else (k - 1) % cap

/-- Sample number `k` of the run: `s₀` for `k = 0`, else the `k`-th written value. -/
def sampleAt (s₀ : ℚ) (vs : List ℚ) (k : ℕ) : ℚ :=
  if k = 0 then s₀ else vs.getD (k - 1) 0

theorem ringRun_append (cap : ℕ) (st : List ℚ × ℕ) (vs : List ℚ) (v : ℚ) :
    ringRun cap st (vs ++ [v]) = ringUpdate cap (ringRun cap st vs) v := by
  simp [ringRun, List.foldl_append]

theorem ringRun_idx (cap : ℕ) (st : List ℚ × ℕ) (hidx : st.2 < cap)
    (vs : List ℚ) : (ringRun cap st vs).2 = (st.2 + vs.length) % cap := by
  induction vs using List.reverseRecOn with
  | nil => simpa [ringRun] using (Nat.mod_eq_of_lt hidx).symm
  | append_singleton ws w ih =>
    rw [ringRun_append]
    show ((ringRun cap st ws).2 + 1) % cap = _
    rw [ih, Nat.mod_add_mod, List.length_append, List.length_singleton, Nat.add_assoc]

theorem ringRun_length (cap : ℕ) (st : List ℚ × ℕ) (vs : List ℚ) :
    (ringRun cap st vs).1.length = st.1.length := by
  induction vs using List.reverseRecOn with
  | nil => rfl
  | append_singleton ws w ih =>
    rw [ringRun_append]
    show ((ringRun cap st ws).1.set _ _).length = _
    rw [List.length_set, ih]

theorem mod_ne_of_close (cap a b : ℕ) (hab : a < b) (hd : b - a < cap) :
    a % cap ≠ b % cap := by
  intro h
  have hdvd : cap ∣ b - a := (Nat.modEq_iff_dvd' hab.le).mp h
  have := Nat.le_of_dvd (by omega) hdvd
  omega

theorem sampleAt_append (s₀ : ℚ) (ws : List ℚ) (w : ℚ) (k : ℕ) (hk : k ≤ ws.length) :
    sampleAt s₀ (ws ++ [w]) k = sampleAt s₀ ws k := by
  unfold sampleAt
  split
  · rfl
  · rename_i hk0
    rw [List.getD_eq_getElem?_getD, List.getD_eq_getElem?_getD,
        List.getElem?_append_left (by omega)]

theorem ring_retention_aux (cap : ℕ) (hcap : 0 < cap) (prefill : List ℚ)
    (hpre : prefill.length = cap - 1) (s₀ : ℚ) (vs : List ℚ) (k : ℕ)
    (hk : k ≤ vs.length) (hret : vs.length < k + cap) :
    (ringRun cap (ringInit prefill s₀) vs).1.getD (slotOf cap k) 0 = sampleAt s₀ vs k := by
  induction vs using List.reverseRecOn generalizing k with
  | nil =>
    have hk0 : k = 0 := Nat.le_zero.mp hk
    subst hk0
    show (prefill ++ [s₀]).getD (slotOf cap 0) 0 = s₀
    rw [List.getD_eq_getElem?_getD, slotOf, if_pos rfl,
        List.getElem?_append_right (by omega)]
    simp [hpre]
  | append_singleton ws w ih =>
    rw [ringRun_append]
    have hlen : (ringRun cap (ringInit prefill s₀) ws).1.length = cap := by
      rw [ringRun_length]
      show (prefill ++ [s₀]).length = cap
      simp [hpre]; omega
    have hidx : (ringRun cap (ringInit prefill s₀) ws).2 = ws.length % cap := by
      rw [ringRun_idx cap _ (by simpa [ringInit] using hcap) ws]
      simp [ringInit]
    show ((ringRun cap (ringInit prefill s₀) ws).1.set _ w).getD (slotOf cap k) 0 = _
    rw [hidx]
    rcases Nat.lt_or_ge k (ws.length + 1) with hlt | hge
    · -- an earlier sample: the new write lands in a different slot
      have hne : ws.length % cap ≠ slotOf cap k := by
        rcases Nat.eq_zero_or_pos k with hk0 | hk1
        · subst hk0
          rw [slotOf, if_pos rfl]
          rw [List.length_append, List.length_singleton] at hret
          rw [Nat.mod_eq_of_lt (by omega)]
          omega
        · rw [slotOf, if_neg (by omega)]
          rw [List.length_append, List.length_singleton] at hret
          exact fun h => mod_ne_of_close cap (k - 1) ws.length (by omega) (by omega) h.symm
      rw [List.getD_eq_getElem?_getD, List.getElem?_set_ne hne,
          ← List.getD_eq_getElem?_getD, sampleAt_append s₀ ws w k (by omega)]
      apply ih k (by omega)
      rw [List.length_append, List.length_singleton] at hret
      omega
    · -- the newest sample: read back the slot just written
      have hkn : k = ws.length + 1 := by
        rw [List.length_append, List.length_singleton] at hk
        omega
      subst hkn
      rw [slotOf, if_neg (by omega)]
      simp only [Nat.add_sub_cancel]
      rw [List.getD_eq_getElem?_getD,
          List.getElem?_set_eq_of_lt w (by rw [hlen]; exact Nat.mod_lt _ hcap),
          Option.getD_some, sampleAt, if_neg (by omega), Nat.add_sub_cancel,
          List.getD_eq_getElem?_getD, List.getElem?_append_right (le_refl _)]
      simp

/-- Claim C2 counterexample: the claim as stated is false. Start from the
constructed state (capacity 3, prefill `[0,0]`, `delay_target` 7, write index
`i0 = 0`) and perform `n = 1` update writing 5. The write index afterwards is
`(i0 + n) mod C = 1`, but slot 1 holds 0, not the most recent sample 5; the
most recent sample sits at slot 0 (the slot the update wrote, which is
`write_index - 1 mod C`). -/
theorem C2_ring_invariant_counterexample :
    (ringRun 3 (ringInit [0, 0] 7) [5]).2 = 1
      ∧ (ringRun 3 (ringInit [0, 0] 7) [5]).1.getD 1 0 ≠ 5
      ∧ (ringRun 3 (ringInit [0, 0] 7) [5]).1.getD 0 0 = 5 := by
  refine ⟨rfl, ?_, rfl⟩
  intro h
  simp [ringRun, ringUpdate, ringInit, List.getD] at h

/-- Claim C2 (amended): after `n ≥ 1` updates to a buffer of capacity `C`
whose write index is initially 0 (as both constructors set it), the most
recently written value is found at slot `(n - 1) mod C`, which equals
`(write_index + C - 1) mod C` (i.e. one slot behind the write index, not at
the write index itself); and a sample exactly `min(n, C-1)` updates old is
still retained: sample number `n - min(n, C-1)` (counting the constructor's
`delay_target` as sample 0) is still stored at its slot. -/
theorem C2_ring_invariant_amended (cap : ℕ) (hcap : 0 < cap) (prefill : List ℚ)
    (hpre : prefill.length = cap - 1) (s₀ : ℚ) (vs : List ℚ) (hvs : vs ≠ []) :
    (ringRun cap (ringInit prefill s₀) vs).1.getD ((vs.length - 1) % cap) 0
        = vs.getD (vs.length - 1) 0
      ∧ (vs.length - 1) % cap
        = ((ringRun cap (ringInit prefill s₀) vs).2 + (cap - 1)) % cap
      ∧ (ringRun cap (ringInit prefill s₀) vs).1.getD
            (slotOf cap (vs.length - min vs.length (cap - 1))) 0
        = sampleAt s₀ vs (vs.length - min vs.length (cap - 1)) := by
  have hlen : 0 < vs.length := List.length_pos.mpr hvs
  refine ⟨?_, ?_, ?_⟩
  · have h := ring_retention_aux cap hcap prefill hpre s₀ vs vs.length (le_refl _)
      (by omega)
    rwa [slotOf, if_neg (by omega), sampleAt, if_neg (by omega)] at h
  · rw [ringRun_idx cap _ (by simpa [ringInit] using hcap) vs]
    show _ = ((0 + vs.length) % cap + (cap - 1)) % cap
    rw [Nat.zero_add, Nat.mod_add_mod]
    have h1 : vs.length + (cap - 1) = (vs.length - 1) + cap := by omega
    rw [h1, Nat.add_mod_right]
  · exact ring_retention_aux cap hcap prefill hpre s₀ vs _ (by omega) (by omega)

/-- Concrete instantiation of the amended C2 theorem: capacity 3, prefill
`[0,0]`, initial sample 7, four updates `[1,2,3,4]`. -/
theorem C2_ring_invariant_amended_witness :
    (0 < 3 ∧ ([(0:ℚ), 0] : List ℚ).length = 3 - 1 ∧ ([(1:ℚ), 2, 3, 4] : List ℚ) ≠ [])
      ∧ ((ringRun 3 (ringInit [0, 0] 7) [1, 2, 3, 4]).1.getD ((4 - 1) % 3) 0
           = ([(1:ℚ), 2, 3, 4]).getD (4 - 1) 0
         ∧ (4 - 1) % 3 = ((ringRun 3 (ringInit [0, 0] 7) [1, 2, 3, 4]).2 + (3 - 1)) % 3
         ∧ (ringRun 3 (ringInit [0, 0] 7) [1, 2, 3, 4]).1.getD
               (slotOf 3 (4 - min 4 (3 - 1))) 0
           = sampleAt 7 [1, 2, 3, 4] (4 - min 4 (3 - 1))) :=
  ⟨⟨by decide, by decide, by decide⟩,
   C2_ring_invariant_amended 3 (by decide) [0, 0] (by decide) 7 [1, 2, 3, 4] (by decide)⟩

/-! ### TimeDelay (`brainpy/math/delayvars.py`)

Samples are scalars (shape `()`), so `data` is a plain list of length
`num_delay_step`. The `linear_interp` interpolation mode is embedded; the
fields mirror the attributes set in `TimeDelay.__init__`. Machine floats are
modelled as exact rationals. -/

/-- Floor of a rational (computable; `Int` division is Euclidean, so this is
the true floor). -/
def ratFloor (q : ℚ) : ℤ := q.num / q.den

/-- Ceiling of a rational, as `jnp.ceil` computes it. -/
def ratCeil (q : ℚ) : ℤ := -ratFloor (-q)

theorem ratFloor_eq (q : ℚ) : ratFloor q = ⌊q⌋ := (Rat.floor_def).symm

theorem ratCeil_eq (q : ℚ) : ratCeil q = ⌈q⌉ := by
  rw [ratCeil, ratFloor_eq, ← Int.ceil_neg, neg_neg]

structure TimeDelayState where
  numDelayStep : ℕ
  data : List ℚ
  idx : ℕ
  currentTime : ℚ
  delayLen : ℚ
  dt : ℚ
  t0 : ℚ
  deriving Repr, DecidableEq

/-- Capacity derivation in `TimeDelay.__init__`:
`int(jnp.ceil(delay_len / dt)) + 1`. -/
def timeDelayCapacity (delayLen dt : ℚ) : ℕ :=
  (ratCeil (delayLen / dt)).toNat + 1

/-- The state built by `TimeDelay.__init__`: `data[:-1]` filled with the
(constant) `before_t0` data, `data[-1] = delay_target`, write index 0,
`current_time = t0`. -/
def timeDelayInit (target : ℚ) (delayLen dt t0 : ℚ) (beforeFill : ℚ) : TimeDelayState :=
  let cap := timeDelayCapacity delayLen dt
  { numDelayStep := cap
    data := List.replicate (cap - 1) beforeFill ++ [target]
    idx := 0
    currentTime := t0
    delayLen := delayLen
    dt := dt
    t0 := t0 }

/-- `TimeDelay.update`: write `value` at `idx`, record `time` as the current
time, advance `idx` modulo the capacity. No shape check is performed. -/
def timeDelayUpdate (st : TimeDelayState) (time value : ℚ) : TimeDelayState :=
  { st with
    data := st.data.set st.idx value
    currentTime := time
    idx := (st.idx + 1) % st.numDelayStep }

/-- JAX gather semantics for `data[i]` with a traced integer index: an
out-of-bounds index is clamped into `[0, len-1]` instead of raising. -/
def jnpGetClamp (l : List ℚ) (i : ℤ) : ℚ :=
  l.getD (max 0 (min i ((l.length : ℤ) - 1))).toNat 0

/-- `jnp.interp(x, [0, dt], [y0, y1])`: piecewise-linear with clamping at the
two ends. -/
def interpTwo (x dt y0 y1 : ℚ) : ℚ :=
  if x ≤ 0 then y0 else if dt ≤ x then y1 else y0 + (y1 - y0) * (x / dt)

/-- The effect of `jnp.asarray(q, dtype=jnp.int32)` on a real scalar:
truncation toward zero (32-bit overflow not modelled). -/
def truncTowardZero (q : ℚ) : ℤ :=
  if 0 ≤ q then ratFloor q else ratCeil q

/-- `TimeDelay._true_fn`: reads `self.data[self.idx[0] + req_num_step]`.
Note the index is NOT reduced modulo `num_delay_step` (contrast `_false_fn`),
so JAX clamps it when it exceeds the last slot. -/
def timeDelayTrueFn (st : TimeDelayState) (reqNumStep : ℤ) : ℚ :=
  jnpGetClamp st.data ((st.idx : ℤ) + reqNumStep)

/-- `TimeDelay._false_fn`: both neighbour indices are reduced with
`idx %= self.num_delay_step`, then linearly interpolated with `jnp.interp`. -/
def timeDelayFalseFn (st : TimeDelayState) (reqNumStep : ℤ) (extra : ℚ) : ℚ :=
  let i0 := (((st.idx : ℤ) + reqNumStep) % (st.numDelayStep : ℤ)).toNat
  let i1 := (((st.idx : ℤ) + reqNumStep + 1) % (st.numDelayStep : ℤ)).toNat
  interpTwo extra st.dt (st.data.getD i0 0) (st.data.getD i1 0)

/-- `TimeDelay._after_t0` in `linear_interp` mode: `diff = delay_len -
(current_time - prev_time)`; `req_num_step = int32(diff / dt)`;
`extra = diff - req_num_step * dt`; branch on `extra == 0`. -/
def timeDelayAfterT0 (st : TimeDelayState) (prevTime : ℚ) : ℚ :=
  let diff := st.delayLen - (st.currentTime - prevTime)
  let req := truncTowardZero (diff / st.dt)
  let extra := diff - (req : ℚ) * st.dt
  if extra = 0 then timeDelayTrueFn st req else timeDelayFalseFn st req extra

/-- The bounds check in `TimeDelay.__call__` (with checking enabled): an
error is raised iff `time > current_time + 1e-6` or
`time < current_time - delay_len - dt`. -/
def timeDelayCheckFails (st : TimeDelayState) (time : ℚ) : Bool :=
  (st.currentTime + 1 / 1000000 < time) || (time < st.currentTime - st.delayLen - st.dt)

/-- Claim C1: in linear-interpolation mode with `remainder = 0` the read does
not return the sample at ring slot `(write_index + steps) mod capacity`.
Failing input: `TimeDelay(delay_target = 7, delay_len = 1, dt = 1,
before_t0 = 9)` (capacity 2), then `update(time = 1, value = 42)` (write
index becomes 1), then read at `t = current_time = 1`. Then `elapsed = 1`,
`steps = 1`, `remainder = 0`; the slot demanded by the claim is
`(1 + 1) mod 2 = 0`, which holds 42, but `_true_fn` indexes
`data[self.idx[0] + req_num_step] = data[2]` without reducing modulo
`num_delay_step`, JAX clamps the out-of-bounds index to the last slot, and
the stale initial sample 7 is returned. `_false_fn` reduces the same index
with `idx %= self.num_delay_step`, so the missing modulo in `_true_fn`
contradicts the evident intent of the ring design: the code, not the spec,
is wrong here. -/
theorem C1_exact_read_skips_modulo :
    timeDelayAfterT0 (timeDelayUpdate (timeDelayInit 7 1 1 0 9) 1 42) 1 = 7
      ∧ truncTowardZero (((1 : ℚ) - ((1 : ℚ) - 1)) / 1) = 1
      ∧ (timeDelayUpdate (timeDelayInit 7 1 1 0 9) 1 42).idx = 1
      ∧ (timeDelayUpdate (timeDelayInit 7 1 1 0 9) 1 42).numDelayStep = 2
      ∧ (timeDelayUpdate (timeDelayInit 7 1 1 0 9) 1 42).data.getD ((1 + 1) % 2) 0 = 42
      ∧ (7 : ℚ) ≠ 42 := by
  have hinit : timeDelayInit 7 1 1 0 9 =
      { numDelayStep := 2, data := [9, 7], idx := 0, currentTime := 0,
        delayLen := 1, dt := 1, t0 := 0 } := by
    norm_num [timeDelayInit, timeDelayCapacity, ratCeil, ratFloor, List.replicate]
  have hupd : timeDelayUpdate (timeDelayInit 7 1 1 0 9) 1 42 =
      { numDelayStep := 2, data := [42, 7], idx := 1, currentTime := 1,
        delayLen := 1, dt := 1, t0 := 0 } := by
    rw [hinit]
    norm_num [timeDelayUpdate, List.set]
  refine ⟨?_, ?_, ?_, ?_, ?_, by norm_num⟩
  · rw [hupd]
    norm_num [timeDelayAfterT0, truncTowardZero, ratFloor, timeDelayTrueFn, jnpGetClamp,
      List.getD]
  · norm_num [truncTowardZero, ratFloor]
  · rw [hupd]
  · rw [hupd]
  · rw [hupd]
    norm_num [List.getD]

/-- Claim C3 counterexample: the read-time bounds check does not reject every
query below `current_time - capacity_span`. With `delay_len = 1`,
`dt = 1/10` the capacity is 11 and `capacity_span = (11 - 1) * (1/10) = 1`;
the query `q = -21/20 = -1.05` lies strictly below
`current_time - capacity_span = -1`, so the claim demands the out-of-range
error, yet the code's check (`time < current_time - delay_len - dt`, i.e.
`q < -1.1`) does not fire. -/
theorem C3_boundary_counterexample :
    (timeDelayInit 0 1 (1/10) 0 0).numDelayStep = 11
      ∧ (((timeDelayInit 0 1 (1/10) 0 0).numDelayStep - 1 : ℕ) : ℚ)
          * (timeDelayInit 0 1 (1/10) 0 0).dt = 1
      ∧ (-21/20 : ℚ) < (timeDelayInit 0 1 (1/10) 0 0).currentTime - 1
      ∧ timeDelayCheckFails (timeDelayInit 0 1 (1/10) 0 0) (-21/20) = false := by
  have hinit : timeDelayInit 0 1 (1/10) 0 0 =
      { numDelayStep := 11, data := List.replicate 10 0 ++ [0], idx := 0,
        currentTime := 0, delayLen := 1, dt := 1/10, t0 := 0 } := by
    norm_num [timeDelayInit, timeDelayCapacity, ratCeil, ratFloor]
    decide
  rw [hinit]
  refine ⟨rfl, by norm_num, by norm_num, ?_⟩
  simp only [timeDelayCheckFails]
  norm_num

/-- Claim C3 (amended): with checking enabled, the time-based read raises the
out-of-range error iff `query_time > current_time + 1e-6` or `query_time <
current_time - delay_len - dt` — a strictly wider acceptance window than the
claim's `[current_time - capacity_span, current_time]` (`1e-6` of tolerance
above, and at least the gap between `capacity_span` and `delay_len + dt`
below). Every query inside the claim's window does pass the check. -/
theorem C3_boundary_amended (st : TimeDelayState) (hdt : 0 < st.dt)
    (hdl : 0 ≤ st.delayLen) (q : ℚ) :
    (timeDelayCheckFails st q = true ↔
        st.currentTime + 1 / 1000000 < q ∨ q < st.currentTime - st.delayLen - st.dt)
      ∧ (st.currentTime - ((timeDelayCapacity st.delayLen st.dt - 1 : ℕ) : ℚ) * st.dt ≤ q →
          q ≤ st.currentTime → timeDelayCheckFails st q = false) := by
  constructor
  · simp [timeDelayCheckFails]
  · intro h1 h2
    have h0 : (0 : ℤ) ≤ ⌈st.delayLen / st.dt⌉ := Int.ceil_nonneg (div_nonneg hdl hdt.le)
    have hcast : ((timeDelayCapacity st.delayLen st.dt - 1 : ℕ) : ℚ)
        = ((⌈st.delayLen / st.dt⌉ : ℤ) : ℚ) := by
      rw [timeDelayCapacity, ratCeil_eq, Nat.add_sub_cancel]
      exact_mod_cast congrArg (fun z : ℤ => (z : ℚ)) (Int.toNat_of_nonneg h0)
    have hceil : (st.delayLen / st.dt : ℚ) ≤ ((⌈st.delayLen / st.dt⌉ : ℤ) : ℚ) :=
      Int.le_ceil _
    have hlt : ((⌈st.delayLen / st.dt⌉ : ℤ) : ℚ) < st.delayLen / st.dt + 1 :=
      Int.ceil_lt_add_one _
    have hspan : ((⌈st.delayLen / st.dt⌉ : ℤ) : ℚ) * st.dt < st.delayLen + st.dt := by
      have := mul_lt_mul_of_pos_right hlt hdt
      calc ((⌈st.delayLen / st.dt⌉ : ℤ) : ℚ) * st.dt
          < (st.delayLen / st.dt + 1) * st.dt := this
        _ = st.delayLen + st.dt := by field_simp
    rw [hcast] at h1
    simp only [timeDelayCheckFails, Bool.or_eq_false_iff, decide_eq_false_iff_not, not_lt]
    constructor
    · linarith
    · linarith

/-- Concrete instantiation of the amended C3 theorem: `current_time = 0`,
`delay_len = 1`, `dt = 1`, query `q = 1/2`. -/
theorem C3_boundary_amended_witness :
    ((0 : ℚ) < 1 ∧ (0 : ℚ) ≤ 1)
      ∧ ((timeDelayCheckFails ⟨2, [0, 7], 0, 0, 1, 1, 0⟩ (1/2) = true ↔
            (0 : ℚ) + 1 / 1000000 < 1/2 ∨ (1/2 : ℚ) < 0 - 1 - 1)
          ∧ ((0 : ℚ) - ((timeDelayCapacity 1 1 - 1 : ℕ) : ℚ) * 1 ≤ 1/2 →
              (1/2 : ℚ) ≤ 0 → timeDelayCheckFails ⟨2, [0, 7], 0, 0, 1, 1, 0⟩ (1/2) = false)) :=
  ⟨⟨by decide, by decide⟩,
   C3_boundary_amended ⟨2, [0, 7], 0, 0, 1, 1, 0⟩ (by decide) (by decide) (1/2)⟩

/-! ### LengthDelay (`brainpy/math/delayvars.py`) and update shape checks

`LengthDelay` stores `num_delay_step = delay_len + 1` slots; `shape` is the
tensor shape of one sample recorded at construction. A sample value carries
its numpy shape plus a scalar payload (the tensors themselves are scalarized
as in the rest of this file). -/

structure LengthDelayState where
  numDelayStep : ℕ
  shape : List ℕ
  data : List ℚ
  idx : ℕ
  deriving Repr, DecidableEq

/-- A value passed to `update`: its `jnp.shape` and a scalar payload. -/
structure TensorVal where
  shape : List ℕ
  payload : ℚ
  deriving Repr, DecidableEq

/-- Numpy broadcasting test: `src` broadcasts to `dst` when, aligning shapes
from the trailing axis, every `src` dimension equals the `dst` dimension or
is 1, and `src` has no extra leading axes. -/
def broadcastsTo (src dst : List ℕ) : Bool :=
  decide (src.length ≤ dst.length) &&
    (List.zip src.reverse dst.reverse).all (fun p => p.1 == p.2 || p.1 == 1)

/-- `LengthDelay.update`: raises iff `jnp.shape(value) != self.shape`;
otherwise writes the value at `idx` and advances `idx` modulo the capacity. -/
def lengthDelayUpdate (st : LengthDelayState) (v : TensorVal) :
    Except String LengthDelayState :=
  if v.shape ≠ st.shape then .error "value shape mismatch"
  else .ok { st with
             data := st.data.set st.idx v.payload
             idx := (st.idx + 1) % st.numDelayStep }

/-- `TimeDelay.update` for a shaped value: the method body performs
`self.data[self.idx[0]] = value` with NO shape comparison, so the substrate
broadcast-assigns the value; only a non-broadcastable shape makes the
substrate itself fail. `bufShape` is the `self.shape` recorded by
`TimeDelay.__init__`. -/
def timeDelayUpdateShaped (bufShape : List ℕ) (st : TimeDelayState) (time : ℚ)
    (v : TensorVal) : Except String TimeDelayState :=
  if broadcastsTo v.shape bufShape then .ok (timeDelayUpdate st time v.payload)
  else .error "substrate broadcast error"

/-- `LengthDelay.__call__` for a scalar `delay_len` argument: with checking
enabled, raises iff `delay_len >= self.num_delay_step`; otherwise returns
`self.data[(self.idx[0] - delay_len - 1) % self.num_delay_step]` (Python's
`%` on a positive modulus is nonnegative, as is `Int.emod`). -/
def lengthDelayCall (st : LengthDelayState) (delayLenArg : ℤ) : Except String ℚ :=
  if (st.numDelayStep : ℤ) ≤ delayLenArg then
    .error "the request delay length should be less than the maximum delay"
  else
    .ok (st.data.getD (((st.idx : ℤ) - delayLenArg - 1) % (st.numDelayStep : ℤ)).toNat 0)

/-- Claim C4 counterexample: a negative `steps_back` is not rejected. For a
buffer of capacity 3 holding `[10, 20, 30]` with write index 1, the claim
requires the read with `steps_back = -1` to fail (`0 ≤ steps_back` is
violated), but the code's only check is `delay_len >= num_delay_step`, so the
call succeeds and returns slot `(1 - (-1) - 1) mod 3 = 1`. -/
theorem C4_negative_steps_counterexample :
    (-1 : ℤ) < 0 ∧ lengthDelayCall ⟨3, [], [10, 20, 30], 1⟩ (-1) = .ok 20 :=
  ⟨by decide, rfl⟩

/-- Claim C4 (amended): a length-based read fails iff `steps_back ≥ capacity`
(negative `steps_back` is accepted, the only check being
`delay_len >= num_delay_step`); every accepted read returns the slot at
`(write_index - steps_back - 1) mod capacity`; and immediately after
`update(v)` the read with `steps_back = 0` returns `v`. -/
theorem C4_length_read_amended (st : LengthDelayState)
    (hwf : st.data.length = st.numDelayStep) (hidx : st.idx < st.numDelayStep) :
    (∀ sb : ℤ, (∃ e, lengthDelayCall st sb = .error e) ↔ (st.numDelayStep : ℤ) ≤ sb)
      ∧ (∀ sb : ℤ, sb < (st.numDelayStep : ℤ) →
          lengthDelayCall st sb
            = .ok (st.data.getD
                (((st.idx : ℤ) - sb - 1) % (st.numDelayStep : ℤ)).toNat 0))
      ∧ (∀ v : TensorVal, v.shape = st.shape → ∀ st',
          lengthDelayUpdate st v = .ok st' → lengthDelayCall st' 0 = .ok v.payload) := by
  refine ⟨fun sb => ⟨?_, ?_⟩, fun sb hsb => ?_, fun v hv st' hst' => ?_⟩
  · rintro ⟨e, he⟩
    by_contra hlt
    rw [lengthDelayCall, if_neg (by omega)] at he
    exact Except.noConfusion he
  · intro h
    exact ⟨_, by rw [lengthDelayCall, if_pos h]⟩
  · rw [lengthDelayCall, if_neg (by omega)]
  · rw [lengthDelayUpdate, if_neg (by simp [hv])] at hst'
    injection hst' with h'
    subst h'
    have hpos : 0 < st.numDelayStep := by omega
    rw [lengthDelayCall, if_neg (by push_cast; omega)]
    have hn : (1 : ℤ) ≤ (st.numDelayStep : ℤ) := by exact_mod_cast hpos
    have hslot : ((((st.idx + 1) % st.numDelayStep : ℕ) : ℤ) - 0 - 1)
        % (st.numDelayStep : ℤ) = (st.idx : ℤ) := by
      rcases Nat.lt_or_ge (st.idx + 1) st.numDelayStep with h | h
      · rw [Nat.mod_eq_of_lt h]
        push_cast
        rw [show ((st.idx : ℤ) + 1 - 0 - 1) = (st.idx : ℤ) by ring]
        exact Int.emod_eq_of_lt (Int.natCast_nonneg _) (by exact_mod_cast hidx)
      · have heq : st.idx + 1 = st.numDelayStep := by omega
        have heqz : ((st.idx : ℤ) + 1) = (st.numDelayStep : ℤ) := by exact_mod_cast heq
        rw [heq, Nat.mod_self]
        rw [show (((0 : ℕ) : ℤ) - 0 - 1)
              = ((st.numDelayStep : ℤ) - 1) + (st.numDelayStep : ℤ) * (-1) by push_cast; ring]
        rw [Int.add_mul_emod_self_left, Int.emod_eq_of_lt (by omega) (by omega)]
        omega
    rw [hslot]
    congr 1
    show (st.data.set st.idx v.payload).getD (st.idx : ℤ).toNat 0 = v.payload
    rw [Int.toNat_natCast, List.getD_eq_getElem?_getD,
        List.getElem?_set_eq_of_lt v.payload (by rw [hwf]; exact hidx), Option.getD_some]

/-- Concrete instantiation of the amended C4 theorem: capacity 3, data
`[10, 20, 30]`, write index 1. -/
theorem C4_length_read_amended_witness :
    (([10, 20, 30] : List ℚ).length = 3 ∧ 1 < 3)
      ∧ ((∀ sb : ℤ, (∃ e, lengthDelayCall ⟨3, [], [10, 20, 30], 1⟩ sb = .error e)
            ↔ ((3 : ℕ) : ℤ) ≤ sb)
         ∧ (∀ sb : ℤ, sb < ((3 : ℕ) : ℤ) →
             lengthDelayCall ⟨3, [], [10, 20, 30], 1⟩ sb
               = .ok (([10, 20, 30] : List ℚ).getD
                   ((((1 : ℕ) : ℤ) - sb - 1) % ((3 : ℕ) : ℤ)).toNat 0))
         ∧ (∀ v : TensorVal, v.shape = [] → ∀ st',
             lengthDelayUpdate ⟨3, [], [10, 20, 30], 1⟩ v = .ok st' →
               lengthDelayCall st' 0 = .ok v.payload)) :=
  ⟨⟨by decide, by decide⟩,
   C4_length_read_amended ⟨3, [], [10, 20, 30], 1⟩ (by decide) (by decide)⟩

/-- Claim C5 counterexample: `TimeDelay.update` performs no shape check. A
time-based buffer whose fixed shape is `(3,)`, updated with a scalar value
(shape `()` ≠ `(3,)`), succeeds by broadcast assignment instead of failing
with a shape-mismatch error as the claim requires of "both delay-buffer
variants". -/
theorem C5_time_update_no_shape_check :
    ([] : List ℕ) ≠ [3]
      ∧ timeDelayUpdateShaped [3] ⟨2, [0, 7], 0, 0, 1, 1, 0⟩ 1 ⟨[], 5⟩
          = .ok ⟨2, [5, 7], 1, 1, 1, 1, 0⟩ :=
  ⟨by decide, rfl⟩

/-- Claim C5 (amended): only `LengthDelay.update` validates the value's
shape, failing iff it differs from the buffer's fixed shape; on a match it
writes the value into slot `write_index` and advances the write index to
`(write_index + 1) mod capacity`. `TimeDelay.update` performs the same write
and advance but with no shape check: any broadcast-compatible value is
accepted. -/
theorem C5_update_shape_amended (st : LengthDelayState) (v : TensorVal)
    (bufShape : List ℕ) (stT : TimeDelayState) (t : ℚ) :
    (v.shape ≠ st.shape → lengthDelayUpdate st v = .error "value shape mismatch")
      ∧ (v.shape = st.shape → lengthDelayUpdate st v
          = .ok { st with data := st.data.set st.idx v.payload,
                          idx := (st.idx + 1) % st.numDelayStep })
      ∧ (broadcastsTo v.shape bufShape = true →
          timeDelayUpdateShaped bufShape stT t v
            = .ok { stT with data := stT.data.set stT.idx v.payload,
                             currentTime := t,
                             idx := (stT.idx + 1) % stT.numDelayStep }) := by
  refine ⟨fun h => ?_, fun h => ?_, fun h => ?_⟩
  · rw [lengthDelayUpdate, if_pos h]
  · rw [lengthDelayUpdate, if_neg (by simp [h])]
  · rw [timeDelayUpdateShaped, if_pos h]
    rfl

/-- Concrete instantiation of the amended C5 theorem: a shape-`(3,)`
length-based buffer rejects a shape-`(2,)` value and accepts a shape-`(3,)`
value; a time-based buffer broadcast-accepts a scalar value. -/
theorem C5_update_shape_amended_witness :
    (([2] : List ℕ) ≠ [3] ∧ ([3] : List ℕ) = [3]
        ∧ broadcastsTo [] [3] = true)
      ∧ lengthDelayUpdate ⟨2, [3], [0, 0], 0⟩ ⟨[2], 5⟩ = .error "value shape mismatch"
      ∧ lengthDelayUpdate ⟨2, [3], [0, 0], 0⟩ ⟨[3], 5⟩
          = .ok { numDelayStep := 2, shape := [3], data := ([(0:ℚ), 0]).set 0 5,
                  idx := (0 + 1) % 2 }
      ∧ timeDelayUpdateShaped [3] ⟨2, [0, 7], 0, 0, 1, 1, 0⟩ 1 ⟨[], 5⟩
          = .ok { numDelayStep := 2, data := ([(0:ℚ), 7]).set 0 5, idx := (0 + 1) % 2,
                  currentTime := 1, delayLen := 1, dt := 1, t0 := 0 } :=
  ⟨⟨by decide, by decide, by decide⟩,
   (C5_update_shape_amended ⟨2, [3], [0, 0], 0⟩ ⟨[2], 5⟩ [3] ⟨2, [0, 7], 0, 0, 1, 1, 0⟩ 1).1
     (by decide),
   (C5_update_shape_amended ⟨2, [3], [0, 0], 0⟩ ⟨[3], 5⟩ [3] ⟨2, [0, 7], 0, 0, 1, 1, 0⟩ 1).2.1
     (by decide),
   (C5_update_shape_amended ⟨2, [3], [0, 0], 0⟩ ⟨[], 5⟩ [3] ⟨2, [0, 7], 0, 0, 1, 1, 0⟩ 1).2.2
     (by decide)⟩

/-! ### Network.run build phase (`brainpy/core_system/network.py`, lines 217-255)

The step procedure is identified by a build counter so that "reused without
rebuilding" is observable; `t_duration` is stored alongside it because the
code assigns both together in the build branch. The input-reset code of the
repeat branch (which may raise its own input/operation mismatch errors) is
abstracted as an `Option String` outcome, kept distinct from the duration
mismatch error. -/

inductive RunMode where
  | once
  | rep
  deriving Repr, DecidableEq

inductive RunErr where
  | durMismatch (last cur : ℚ)
  | inputErr (msg : String)
  deriving Repr, DecidableEq

structure NetRunState where
  mode : RunMode
  stepFunc : Option (ℕ × ℚ)
  buildCount : ℕ
  deriving Repr, DecidableEq

/-- The build phase of `Network.run`: rebuild unless the mode is `repeat` and
a step function exists; in the repeat branch, first compare `t_duration`
against `end - start`, then run the input reset (which may itself fail), and
reuse the stored step function. Returns the new state and whether a rebuild
happened. -/
def runBuildPhase (st : NetRunState) (s e : ℚ) (inpReset : Option String) :
    Except RunErr (NetRunState × Bool) :=
  let rebuilt : NetRunState :=
    { st with stepFunc := some (st.buildCount + 1, e - s), buildCount := st.buildCount + 1 }
  match st.stepFunc with
  | none => .ok (rebuilt, true)
  | some sf =>
      if st.mode ≠ RunMode.rep then
        .ok (rebuilt, true)
      else if sf.2 ≠ e - s then
        .error (.durMismatch sf.2 (e - s))
      else
        match inpReset with
        | some msg => .error (.inputErr msg)
        | none => .ok (st, false)

/-- Claim C6: in repeat mode, once a step function has been built with
duration `D`, a later run raises the duration-mismatch error iff its
`end - start` differs from `D`; and whenever the call succeeds the stored
step function is exactly the one built before (same build id), i.e. it is
reused without rebuilding. Input-reset failures raise a different error and
never the duration mismatch. -/
theorem C6_repeat_duration_check (st : NetRunState) (n : ℕ) (D : ℚ)
    (hmode : st.mode = RunMode.rep) (hsf : st.stepFunc = some (n, D))
    (s e : ℚ) (inpReset : Option String) :
    ((∃ a b, runBuildPhase st s e inpReset = .error (.durMismatch a b)) ↔ e - s ≠ D)
      ∧ (∀ res, runBuildPhase st s e inpReset = .ok res →
          res.1.stepFunc = some (n, D) ∧ res.2 = false) := by
  simp only [runBuildPhase, hsf]
  rw [if_neg (by simp [hmode])]
  by_cases hD : D ≠ e - s
  · rw [if_pos hD]
    refine ⟨⟨fun _ => fun h => hD h.symm, fun _ => ⟨D, e - s, rfl⟩⟩, fun res hres => ?_⟩
    exact Except.noConfusion hres
  · rw [if_neg hD]
    push_neg at hD
    subst hD
    constructor
    · constructor
      · rintro ⟨a, b, hab⟩
        cases hinp : inpReset with
        | none => rw [hinp] at hab; exact Except.noConfusion hab
        | some msg => rw [hinp] at hab; injection hab with h'; exact RunErr.noConfusion h'
      · intro h
        exact absurd rfl h
    · intro res hres
      cases hinp : inpReset with
      | none =>
        rw [hinp] at hres
        injection hres with h'
        subst h'
        exact ⟨hsf, rfl⟩
      | some msg => rw [hinp] at hres; exact Except.noConfusion hres

/-- Concrete instantiation of the C6 theorem: repeat mode, step function
built with duration 10, rerun with `(start, end) = (0, 10)` and a clean
input reset. -/
theorem C6_repeat_duration_check_witness :
    (NetRunState.mode ⟨RunMode.rep, some (1, 10), 1⟩ = RunMode.rep
        ∧ NetRunState.stepFunc ⟨RunMode.rep, some (1, 10), 1⟩ = some (1, 10))
      ∧ (((∃ a b, runBuildPhase ⟨RunMode.rep, some (1, 10), 1⟩ 0 10 none
              = .error (.durMismatch a b)) ↔ (10 : ℚ) - 0 ≠ 10)
         ∧ (∀ res, runBuildPhase ⟨RunMode.rep, some (1, 10), 1⟩ 0 10 none = .ok res →
             res.1.stepFunc = some (1, 10) ∧ res.2 = false)) :=
  ⟨⟨by decide, by decide⟩,
   C6_repeat_duration_check ⟨RunMode.rep, some (1, 10), 1⟩ 1 10 (by decide) (by decide) 0 10
     none⟩

/-! ### Timestamps: `Network.run`/`Network.ts` and `IntegratorRunner._post` -/

/-- `np.arange(start, stop, dt)` for `dt > 0`: `ceil((stop - start)/dt)`
points `start + i*dt` (empty when the count is nonpositive). -/
def arange (start stop dt : ℚ) : List ℚ :=
  (List.range (ratCeil ((stop - start) / dt)).toNat).map (fun i => start + (i : ℚ) * dt)

structure RunTsTrace where
  stepTimes : List ℚ
  monTs : List ℚ
  deriving Repr, DecidableEq

/-- `Network.run`: the loop invokes the step function at each element of
`ts = np.arange(start, end, dt)` in order, and afterwards stores
`obj.mon['ts'] = self.ts` on every participant, where the `ts` property
recomputes `np.arange(self.t_start, self.t_end, self.dt)` from the bounds
the run just recorded. -/
def networkRunTrace (start finish dt : ℚ) : RunTsTrace :=
  { stepTimes := arange start finish dt
    monTs := arange start finish dt }

/-- `IntegratorRunner.__call__` and `_post`: the loop steps over
`times = np.arange(start_t, start_t + duration, dt)`, but `_post` records
`self.mon.ts = times + self.dt`, one step ahead of the times actually used. -/
def integratorRunTrace (startT dur dt : ℚ) : RunTsTrace :=
  let times := arange startT (startT + dur) dt
  { stepTimes := times
    monTs := times.map (fun t => t + dt) }

/-- Claim C7 counterexample: `IntegratorRunner` does not record the step
timestamps actually used. For `run(duration = 5)` with `dt = 1` the loop
steps at `[0, 1, 2, 3, 4]` but `_post` stores `mon.ts = times + dt =
[1, 2, 3, 4, 5]`, not the claimed `[0, 1, 2, 3, 4]`. -/
theorem C7_integrator_ts_counterexample :
    (integratorRunTrace 0 5 1).stepTimes = [0, 1, 2, 3, 4]
      ∧ (integratorRunTrace 0 5 1).monTs = [1, 2, 3, 4, 5]
      ∧ (integratorRunTrace 0 5 1).monTs ≠ (integratorRunTrace 0 5 1).stepTimes := by
  have harange : arange 0 (0 + 5) 1 = [0, 1, 2, 3, 4] := by
    have hceil : (ratCeil (((0 : ℚ) + 5 - 0) / 1)).toNat = 5 := by
      norm_num [ratCeil, ratFloor]
      decide
    rw [arange, hceil]
    norm_num [List.range_succ]
  refine ⟨?_, ?_, ?_⟩
  · show arange 0 (0 + 5) 1 = _
    exact harange
  · show (arange 0 (0 + 5) 1).map _ = _
    rw [harange]
    norm_num
  · show (arange 0 (0 + 5) 1).map _ ≠ arange 0 (0 + 5) 1
    rw [harange]
    norm_num

/-- Claim C7 (amended): `Network.run` does give every participant's monitor a
`ts` entry equal to the sequence of step timestamps actually used (and for
`run(duration = 5)` with `dt = 1` that sequence is `[0, 1, 2, 3, 4]`), but
`IntegratorRunner._post` instead records `times + dt`, one step ahead of the
timestamps it stepped at. -/
theorem C7_network_ts_amended (start finish dt : ℚ) :
    (networkRunTrace start finish dt).monTs = (networkRunTrace start finish dt).stepTimes
      ∧ (networkRunTrace 0 5 1).stepTimes = [0, 1, 2, 3, 4]
      ∧ ∀ s d dt2 : ℚ,
          (integratorRunTrace s d dt2).monTs
            = (integratorRunTrace s d dt2).stepTimes.map (fun t => t + dt2) := by
  refine ⟨rfl, ?_, fun s d dt2 => rfl⟩
  show arange 0 5 1 = _
  have hceil : (ratCeil (((5 : ℚ) - 0) / 1)).toNat = 5 := by
    norm_num [ratCeil, ratFloor]
    decide
  rw [arange, hceil]
  norm_num [List.range_succ]

/-! ### Network._add_obj (`brainpy/core_system/network.py`, lines 53-72) -/

inductive ObjCat where
  | neu
  | syn
  | other
  deriving Repr, DecidableEq

structure NetObj where
  name : String
  cat : ObjCat
  deriving Repr, DecidableEq

structure NetAssembly where
  allObjects : List NetObj
  neuGroups : List NetObj
  synConns : List NetObj
  objsets : List (String × NetObj)
  deriving Repr, DecidableEq

/-- The name-registration tail of `_add_obj`: duplicate names raise, fresh
names are recorded in `_objsets` (the attribute injection maps the same
name to the same object). -/
def addObjName (net : NetAssembly) (obj : NetObj) (nameArg : Option String) :
    NetAssembly × Option String :=
  let name := nameArg.getD obj.name
  if (net.objsets.lookup name).isSome then
    (net, some "name has been used in the network")
  else
    ({ net with objsets := net.objsets ++ [(name, obj)] }, none)

/-- `Network._add_obj`: the object is appended to `_all_objects` FIRST; only
then is it classified, and an object of unknown category raises after the
append has already mutated the execution order. Returns the post-call state
together with the raised error, if any. -/
def addObj (net : NetAssembly) (obj : NetObj) (nameArg : Option String) :
    NetAssembly × Option String :=
  let net1 := { net with allObjects := net.allObjects ++ [obj] }
  match obj.cat with
  | .neu => addObjName { net1 with neuGroups := net1.neuGroups ++ [obj] } obj nameArg
  | .syn => addObjName { net1 with synConns := net1.synConns ++ [obj] } obj nameArg
  | .other => (net1, some "unknown object type")

/-- Claim C10: `Network.add` is not atomic on failure. For every object of
unknown category, `_add_obj` raises the unknown-object-type error but has
already appended the object to `_all_objects`, leaving the network's
execution order modified (all other fields untouched). -/
theorem C10_add_appends_before_error (net : NetAssembly) (obj : NetObj)
    (nameArg : Option String) (hcat : obj.cat = ObjCat.other) :
    addObj net obj nameArg
      = ({ net with allObjects := net.allObjects ++ [obj] },
         some "unknown object type") := by
  simp only [addObj, hcat]

/-- Concrete instantiation of the C10 theorem: an empty network and an
object of unknown category. -/
theorem C10_add_appends_before_error_witness :
    NetObj.cat ⟨"m", ObjCat.other⟩ = ObjCat.other
      ∧ addObj ⟨[], [], [], []⟩ ⟨"m", ObjCat.other⟩ none
          = (⟨[⟨"m", ObjCat.other⟩], [], [], []⟩, some "unknown object type") :=
  ⟨by decide, C10_add_appends_before_error ⟨[], [], [], []⟩ ⟨"m", ObjCat.other⟩ none
    (by decide)⟩

/-! ### Network._format_inputs (`brainpy/core_system/network.py`, lines 91-159)

Python values that can appear in an input specification are embedded as
`PyVal`: strings, scalars, arrays (tracked by their leading dimension),
`BrainEnsemble` objects (tracked by their name), and tuples/lists. The
network's attribute table (`getattr`) is a name-to-participant-name map,
since both `name` and `obj.name` are bound to the object by `_add_obj`. -/

inductive PyVal where
  | pstr (s : String)
  | pnum (q : ℚ)
  | parr (rows : ℕ)
  | pens (nm : String)
  | ptup (l : List PyVal)

/-- Modelled from the spec: the recognized accumulation operations
(`core_system/constants.py` with `INPUT_OPERATIONS` is not among the
provided sources); the spec lists add, subtract, multiply, assign, with the
additive default written `+` in the code. -/
def INPUT_OPERATIONS : List String := ["+", "-", "*", "/", "="]

/-- Python `len`: defined for sequences and strings only. -/
def pyLen (v : PyVal) : Option ℕ :=
  match v with
  | .ptup l => some l.length
  | .pstr s => some s.length
  | _ => none

/-- Python indexing `v[i]` for the values `len` accepts (string indexing
yields one-character strings). -/
def pyGet (v : PyVal) (i : ℕ) : Option PyVal :=
  match v with
  | .ptup l => l.get? i
  | .pstr s => (s.toList.get? i).map (fun c => .pstr (String.singleton c))
  | _ => none

/-- The pre-validation loop (lines 103-113): each spec must have 3 or 4
fields, and a 4th field must be a recognized operation. -/
def specError (inp : PyVal) : Option String :=
  match pyLen inp with
  | none => some "object has no length"
  | some n =>
      if 3 ≤ n ∧ n ≤ 4 then
        if n = 4 then
          match pyGet inp 3 with
          | some (.pstr op) =>
              if INPUT_OPERATIONS.contains op then none
              else some "input operation not supported"
          | _ => some "input operation not supported"
        else none
      else some "for each target specify target key value and operation"

def firstSpecError : List PyVal → Option String
  | [] => none
  | inp :: rest =>
      match specError inp with
      | some e => some e
      | none => firstSpecError rest

/-- The auto-wrap step (lines 98-102): when the collection is non-empty and
its first element is not a list/tuple, the whole collection is wrapped into
a one-element list — but only if that first element is a `BrainEnsemble`;
any other non-sequence head (in particular a string target name) raises
"Unknown input structure". -/
def wrapInputs (l : List PyVal) : Except String (List PyVal) :=
  match l with
  | [] => .ok []
  | h :: t =>
      match h with
      | .ptup _ => .ok (h :: t)
      | .pens _ => .ok [.ptup (h :: t)]
      | _ => .error "unknown input structure"

structure FmtInp where
  key : String
  val : PyVal
  ops : String
  dataType : String

/-- `formatted_inputs[target].append(...)`: append under an existing key
in insertion order, or add a new key at the end (Python dict order). -/
def addFmt (m : List (String × List FmtInp)) (t : String) (e : FmtInp) :
    List (String × List FmtInp) :=
  match m with
  | [] => [(t, [e])]
  | (t', es) :: rest =>
      if t' = t then (t', es ++ [e]) :: rest else (t', es) :: addFmt rest t e

/-- The per-spec body of the formatting loop (lines 117-157): resolve the
target (string name through `getattr`, or a direct `BrainEnsemble`),
require a string key, classify the value (`iter` when an array's leading
dimension equals the run length, else `fix`), default the operation to
`+`. -/
def formatOne (reg : List (String × String)) (runLength : ℕ)
    (acc : List (String × List FmtInp)) (inp : PyVal) :
    Except String (List (String × List FmtInp)) :=
  let target? : Except String String :=
    match pyGet inp 0 with
    | some (.pstr s) =>
        match reg.lookup s with
        | some objName => .ok objName
        | none => .error "attribute not found"
    | some (.pens nm) => .ok nm
    | _ => .error "unknown input target"
  match target? with
  | .error e => .error e
  | .ok target =>
      match pyGet inp 1 with
      | some (.pstr key) =>
          let val? : Except String (PyVal × String) :=
            match pyGet inp 2 with
            | some (.pnum q) => .ok (.pnum q, "fix")
            | some (.parr rows) =>
                .ok (.parr rows, if rows = runLength then "iter" else "fix")
            | _ => .error "input must be a numerical value"
          match val? with
          | .error e => .error e
          | .ok (val, dataType) =>
              let ops :=
                match pyGet inp 3 with
                | some (.pstr op) => op
                | _ => "+"
              .ok (addFmt acc target ⟨key, val, ops, dataType⟩)
      | _ => .error "input key must be a string"

def formatInputsCore (reg : List (String × String)) (runLength : ℕ) :
    List PyVal → List (String × List FmtInp) → Except String (List (String × List FmtInp))
  | [], acc => .ok acc
  | inp :: rest, acc =>
      match formatOne reg runLength acc inp with
      | .error e => .error e
      | .ok acc' => formatInputsCore reg runLength rest acc'

/-- `Network._format_inputs`: require a tuple/list, auto-wrap, validate every
spec, then format them in order. -/
def formatInputs (reg : List (String × String)) (inputs : PyVal) (runLength : ℕ) :
    Except String (List (String × List FmtInp)) :=
  match inputs with
  | .ptup l =>
      match wrapInputs l with
      | .error e => .error e
      | .ok l' =>
          match firstSpecError l' with
          | some e => .error e
          | none => formatInputsCore reg runLength l' []
  | _ => .error "inputs must be a tuple or list"

/-- Claim C8 counterexample: a single un-wrapped spec whose target is the
string name of a registered participant is NOT auto-wrapped: the formatter
raises "unknown input structure", while the equivalent one-element list
formats fine. The auto-wrap fires only when the first element is a direct
object reference. -/
theorem C8_string_target_not_wrapped :
    formatInputs [("a", "a")] (.ptup [.pstr "a", .pstr "x", .pnum 1]) 10
        = .error "unknown input structure"
      ∧ formatInputs [("a", "a")] (.ptup [.ptup [.pstr "a", .pstr "x", .pnum 1]]) 10
          = .ok [("a", [⟨"x", .pnum 1, "+", "fix"⟩])] :=
  ⟨rfl, rfl⟩

/-- Claim C8 (amended): the auto-wrap accepts a single un-wrapped spec only
when its target is a direct participant object reference, in which case the
formatted result is exactly that of the equivalent one-element list; a
single un-wrapped spec with a string target name always fails with
"unknown input structure" (and, concretely, an object-reference spec
formats successfully end to end). -/
theorem C8_autowrap_object_only (reg : List (String × String)) (runLength : ℕ)
    (nm : String) (rest : List PyVal) :
    formatInputs reg (.ptup (.pens nm :: rest)) runLength
        = formatInputs reg (.ptup [.ptup (.pens nm :: rest)]) runLength
      ∧ (∀ (s : String) (rest2 : List PyVal),
          formatInputs reg (.ptup (.pstr s :: rest2)) runLength
            = .error "unknown input structure")
      ∧ formatInputs [("a", "a")] (.ptup [.pens "a", .pstr "x", .pnum 1]) 10
          = .ok [("a", [⟨"x", .pnum 1, "+", "fix"⟩])] :=
  ⟨rfl, fun _ _ => rfl, rfl⟩

/-! ### NeuGroup.__call__ override loops (`npbrain/core/neuron_group.py`)

The loops are written `for k, v in vars_init:` / `for k, v in pars_update:`.
Iterating a Python dict yields its KEYS, and the tuple target `k, v`
unpacks each key string: a key of length two splits into its two characters
(as one-character strings), any other length raises ValueError. The values
of the dict are never read. -/

inductive PyObj where
  | onum (q : ℚ)
  | ostr (s : String)
  deriving Repr, DecidableEq

/-- Python `k, v = s` for a string `s`: succeeds iff the string has exactly
two characters. -/
def unpack2 (s : String) : Except String (String × String) :=
  match s.toList with
  | [a, b] => .ok (String.singleton a, String.singleton b)
  | _ => .error "cannot unpack key string"

/-- `d[k] = v` on an association list (keys are unique in a dict). -/
def dictSet (m : List (String × PyObj)) (k : String) (v : PyObj) :
    List (String × PyObj) :=
  m.map (fun p => if p.1 = k then (k, v) else p)

/-- The override loop of `NeuGroup.__call__` (lines 44-47, and identically
lines 68-74 for `pars_update`): iterate the DICT ITSELF (hence its keys),
tuple-unpack each key, check membership of the first character in
`self.variables`, and assign the second character as the new value. -/
def varsInitLoop (vars0 : List (String × PyObj))
    (varsInit : List (String × PyObj)) : Except String (List (String × PyObj)) :=
  varsInit.foldl
    (fun acc kv =>
      match acc with
      | .error e => .error e
      | .ok vars' =>
          match unpack2 kv.1 with
          | .error e => .error e
          | .ok (k, v) =>
              if (vars0.lookup k).isSome then .ok (dictSet vars' k (.ostr v))
              else .error "variable is not defined")
    (.ok vars0)

/-- Claim C9: overriding a named variable through `vars_init` is the
documented intent (the spec's design note demands a test that the override
actually updates the variable), but the code's loop `for k, v in vars_init:`
iterates the dict's keys and tuple-unpacks each key string, so the call
never succeeds with the claimed result. At the failing input
`vars_init = ("V" maps-to -70)` on a group defining variable `V`, the
one-character key cannot be unpacked and the call raises ValueError instead
of setting `V` to -70; a two-character key `ab` unpacks into `a`, `b` and
then fails the membership check (or, if `a` were a variable, would assign
the STRING `b`, not the supplied value). -/
theorem C9_vars_init_loop_raises :
    varsInitLoop [("V", .onum 0)] [("V", .onum (-70))]
        = .error "cannot unpack key string"
      ∧ varsInitLoop [("ab", .onum 0)] [("ab", .onum 3)]
          = .error "variable is not defined"
      ∧ varsInitLoop [("a", .onum 0)] [("ab", .onum 3)]
          = .ok [("a", .ostr "b")] :=
  ⟨rfl, rfl, rfl⟩
